import Mathlib

/-!
Verification of the rpa-airbnb scraper (`src/main.py`) against its
natural-language specification.

Strings are modelled as `List Char`.  Python's `unicodedata.normalize("NFKD", ·)`
followed by `.encode("ascii", "ignore")` is modelled by `asciiFold`, a
character-level fold that keeps ASCII characters, decomposes accented Latin
letters to their base ASCII letter (the combining mark is dropped by the
ascii/ignore step), and drops any other non-ASCII character.
-/

/-- Python `\s` on the ASCII range (space, tab, newline, carriage return,
vertical tab, form feed), as used by `str.strip()` and the `\s` regex class. -/
def isPySpace (c : Char) : Bool :=
  c = ' ' || c = '\t' || c = '\n' || c = '\r' || c = '\x0b' || c = '\x0c'

/-- The regex class `[a-zA-Z0-9]` from `city_slug`. -/
def isAsciiAlnum (c : Char) : Bool :=
  (65 ≤ c.toNat && c.toNat ≤ 90) || (97 ≤ c.toNat && c.toNat ≤ 122) ||
    (48 ≤ c.toNat && c.toNat ≤ 57)

/-- Python `str.strip()` (no argument): drop leading and trailing whitespace. -/
def pyStrip (s : List Char) : List Char :=
  ((s.dropWhile isPySpace).reverse.dropWhile isPySpace).reverse

/-- Python `str.strip("-")`: drop leading and trailing hyphens. -/
def stripDash (s : List Char) : List Char :=
  ((s.dropWhile (fun c => c = '-')).reverse.dropWhile (fun c => c = '-')).reverse

/-- Python `str.lower()` restricted to ASCII letters (the strings it is applied
to have already been reduced to ASCII by the NFKD/ascii-ignore step). -/
def pyLower (c : Char) : Char :=
  if 65 ≤ c.toNat ∧ c.toNat ≤ 90 then Char.ofNat (c.toNat + 32) else c

/-- Model of `unicodedata.normalize("NFKD", ·)` + `.encode("ascii","ignore")`
at the level of a single character: ASCII characters are kept, accented Latin
letters decompose to their ASCII base letter, all other non-ASCII characters
are dropped. -/
def asciiFold (c : Char) : List Char :=
  if c.toNat ≤ 127 then [c]
  else if c ∈ ['á', 'à', 'â', 'ã', 'ä', 'å', 'Á', 'À', 'Â', 'Ã', 'Ä', 'Å'] then ['a']
  else if c ∈ ['é', 'è', 'ê', 'ë', 'É', 'È', 'Ê', 'Ë'] then ['e']
  else if c ∈ ['í', 'ì', 'î', 'ï', 'Í', 'Ì', 'Î', 'Ï'] then ['i']
  else if c ∈ ['ó', 'ò', 'ô', 'õ', 'ö', 'Ó', 'Ò', 'Ô', 'Õ', 'Ö'] then ['o']
  else if c ∈ ['ú', 'ù', 'û', 'ü', 'Ú', 'Ù', 'Û', 'Ü'] then ['u']
  else if c ∈ ['ç', 'Ç'] then ['c']
  else if c ∈ ['ñ', 'Ñ'] then ['n']
  else []

/-- NFKD + ascii-ignore over a whole string. -/
def asciiFoldList (s : List Char) : List Char :=
  s.flatMap asciiFold

/-- `DEFAULT_CITY` from `src/main.py`. -/
def DEFAULT_CITY : List Char := "Jacarei - SP".data

/-- `normalize_city` (src/main.py:38-40): trim, falling back to the default
city when the result is empty. -/
def normalize_city (city : List Char) : List Char :=
  let value := pyStrip city
  if value = [] then DEFAULT_CITY else value

/-- One pass of `re.sub(r"[^a-zA-Z0-9]+", "-", s)`: alphanumeric characters are
kept, each maximal run of other characters becomes a single `'-'`.  The boolean
records whether we are inside such a run. -/
def replRuns : Bool → List Char → List Char
  | _, [] => []
  | inRun, c :: rest =>
    if isAsciiAlnum c then c :: replRuns false rest
    else if inRun then replRuns true rest
    else '-' :: replRuns true rest

/-- `city_slug` (src/main.py:43-47). -/
def city_slug (city : List Char) : List Char :=
  let ascii_only := asciiFoldList (normalize_city city)
  let slug := stripDash (replRuns false (ascii_only.map pyLower))
  if slug = [] then "cidade".data else slug

/-- The character set claimed for slugs: ASCII lowercase letters, digits,
and hyphen. -/
def isSlugChar (c : Char) : Bool :=
  (97 ≤ c.toNat && c.toNat ≤ 122) || (48 ≤ c.toNat && c.toNat ≤ 57) ||
    (c.toNat = 45)

theorem toNat_ofNat_valid (n : Nat) (h : n.isValidChar) : (Char.ofNat n).toNat = n := by
  rw [Char.ofNat, dif_pos h]
  rfl

theorem pyLower_toNat (c : Char) :
    (pyLower c).toNat = if 65 ≤ c.toNat ∧ c.toNat ≤ 90 then c.toNat + 32 else c.toNat := by
  unfold pyLower
  split
  · next h => exact toNat_ofNat_valid _ (Or.inl (by omega))
  · rfl

theorem mem_replRuns {c : Char} : ∀ (b : Bool) (l : List Char),
    c ∈ replRuns b l → c = '-' ∨ (isAsciiAlnum c = true ∧ c ∈ l) := by
  intro b l
  induction l generalizing b with
  | nil => intro h; simp [replRuns] at h
  | cons a rest ih =>
    intro h
    unfold replRuns at h
    by_cases ha : isAsciiAlnum a = true
    · rw [if_pos ha] at h
      rcases List.mem_cons.mp h with h | h
      · subst h; exact Or.inr ⟨ha, List.mem_cons_self _ _⟩
      · rcases ih false h with h | ⟨h1, h2⟩
        · exact Or.inl h
        · exact Or.inr ⟨h1, List.mem_cons_of_mem _ h2⟩
    · rw [if_neg ha] at h
      cases b with
      | true =>
        simp only [if_pos rfl] at h
        rcases ih true h with h | ⟨h1, h2⟩
        · exact Or.inl h
        · exact Or.inr ⟨h1, List.mem_cons_of_mem _ h2⟩
      | false =>
        simp only [Bool.false_eq_true, if_false] at h
        rcases List.mem_cons.mp h with h | h
        · exact Or.inl h
        · rcases ih true h with h | ⟨h1, h2⟩
          · exact Or.inl h
          · exact Or.inr ⟨h1, List.mem_cons_of_mem _ h2⟩

theorem mem_stripDash {c : Char} {s : List Char} (h : c ∈ stripDash s) : c ∈ s := by
  unfold stripDash at h
  rw [List.mem_reverse] at h
  have h1 := (List.dropWhile_sublist _).mem h
  rw [List.mem_reverse] at h1
  exact (List.dropWhile_sublist _).mem h1

/-- Claim C8: `city_slug` is total and deterministic (it is a Lean function),
and for every input string it returns a non-empty string whose characters are
all ASCII lowercase alphanumerics or hyphens; when the transformation yields
the empty string it falls back to the fixed sentinel `"cidade"`. -/
theorem city_slug_safe (city : List Char) :
    city_slug city ≠ [] ∧ (∀ c ∈ city_slug city, isSlugChar c = true) := by
  unfold city_slug
  set inner := stripDash (replRuns false ((asciiFoldList (normalize_city city)).map pyLower)) with hinner
  by_cases hempty : inner = []
  · rw [if_pos hempty]
    exact ⟨by decide, by decide⟩
  · rw [if_neg hempty]
    refine ⟨hempty, ?_⟩
    intro c hc
    have hmem := mem_stripDash hc
    rcases mem_replRuns _ _ hmem with h | ⟨halnum, hmap⟩
    · subst h; decide
    · rcases List.mem_map.mp hmap with ⟨d, _, hd⟩
      subst hd
      have hl := pyLower_toNat d
      unfold isSlugChar
      unfold isAsciiAlnum at halnum
      simp only [Bool.or_eq_true, Bool.and_eq_true, decide_eq_true_eq] at halnum ⊢
      split at hl <;> omega

/-- Witness for claim C8 at a concrete city name containing an accented letter. -/
theorem city_slug_safe_witness :
    city_slug "Jacareí - SP".data ≠ [] ∧
      (∀ c ∈ city_slug "Jacareí - SP".data, isSlugChar c = true) :=
  city_slug_safe _

/-!
## `parse_listings_count` (src/main.py:111-136)

The Python function normalizes the text (NFKD, ascii-ignore, lower) and then
tries an ordered list of four regular expressions; the first one that matches
with a digit-bearing capture group wins; the non-digit characters of the group
(thousands separators) are stripped before integer parsing; if nothing
matches, it returns `0`.

The four regexes only use character classes that are pairwise disjoint at
every junction (`[\d\.\,]+` vs `\s+` vs literal keywords), so Python's
backtracking search is equivalent to the maximal-munch scanners below, and
`re.search`'s leftmost-match rule is the left-to-right scan `scanFor`.
The lazy `.*?` of pattern 2 (which cannot cross a newline) is `lineScanNumKw`.
-/

/-- The regex class `\d` (ASCII, after normalization). -/
def isDigitC (c : Char) : Bool := 48 ≤ c.toNat && c.toNat ≤ 57

/-- The regex class `[\d\.\,]`. -/
def isNumC (c : Char) : Bool := isDigitC c || c = '.' || c = ','

/-- Does the literal `k` occur at the start of `s`? -/
def litAt : List Char → List Char → Bool
  | [], _ => true
  | _ :: _, [] => false
  | a :: ks, b :: s => a == b && litAt ks s

/-- Match the literal `k` at the start of `s` and return the remainder. -/
def litStrip (k s : List Char) : Option (List Char) :=
  if litAt k s then some (s.drop k.length) else none

/-- Does one of the keywords occur at the start of `s`? -/
def kwAt (kws : List (List Char)) (s : List Char) : Bool :=
  kws.any (fun k => litAt k s)

/-- Match `(cls+)\s+(kw1|kw2|...)` at the start of `s`, returning the captured
group.  This is the common tail of all four count patterns. -/
def numKwAt (isCls : Char → Bool) (kws : List (List Char)) (s : List Char) :
    Option (List Char) :=
  if s.takeWhile isCls = [] then none
  else if (s.dropWhile isCls).takeWhile isPySpace = [] then none
  else if kwAt kws ((s.dropWhile isCls).dropWhile isPySpace) then
    some (s.takeWhile isCls)
  else none

/-- `re.search`: try the pattern at every position, leftmost match wins. -/
def scanFor (f : List Char → Option (List Char)) : List Char → Option (List Char)
  | [] => f []
  | c :: rest =>
    match f (c :: rest) with
    | some g => some g
    | none => scanFor f rest

/-- The lazy `.*?` of pattern 2: find the leftmost start of a
number-then-keyword match, where the skipped characters may not include a
newline (`.` does not match `\n`). -/
def lineScanNumKw (kws : List (List Char)) : List Char → Option (List Char)
  | [] => none
  | c :: rest =>
    match numKwAt isNumC kws (c :: rest) with
    | some g => some g
    | none => if c = '\n' then none else lineScanNumKw kws rest

/-- Keywords of pattern 1: `(?:de|of)\s+([\d\.\,]+)\s+(?:itens|items|listings|anuncios|acomodacoes)`. -/
def kwList1 : List (List Char) :=
  ["itens".data, "items".data, "listings".data, "anuncios".data, "acomodacoes".data]

/-- Keywords of pattern 2: `mostrando.*?([\d\.\,]+)\s+(?:itens|items)`. -/
def kwList2 : List (List Char) := ["itens".data, "items".data]

/-- Keywords of pattern 3: `([\d\.\,]+)\s+(?:anuncios|listings|acomodacoes|places)`. -/
def kwList3 : List (List Char) :=
  ["anuncios".data, "listings".data, "acomodacoes".data, "places".data]

/-- Keywords of pattern 4: `(\d+)\s+(?:listings|anuncios)`. -/
def kwList4 : List (List Char) := ["listings".data, "anuncios".data]

/-- `\s+`: require at least one whitespace character, skip the maximal run. -/
def wsSkip (s : List Char) : Option (List Char) :=
  if s.takeWhile isPySpace = [] then none else some (s.dropWhile isPySpace)

/-- Pattern 1 anchored at the current position. -/
def pat1At (s : List Char) : Option (List Char) :=
  ((litStrip "de".data s).orElse (fun _ => litStrip "of".data s)).bind (fun r =>
    (wsSkip r).bind (fun r2 => numKwAt isNumC kwList1 r2))

/-- Pattern 2 anchored at the current position. -/
def pat2At (s : List Char) : Option (List Char) :=
  (litStrip "mostrando".data s).bind (fun r => lineScanNumKw kwList2 r)

/-- Pattern 3 anchored at the current position. -/
def pat3At (s : List Char) : Option (List Char) := numKwAt isNumC kwList3 s

/-- Pattern 4 anchored at the current position. -/
def pat4At (s : List Char) : Option (List Char) := numKwAt isDigitC kwList4 s

/-- `int(val_str)` on a digit string. -/
def natOfDigits (ds : List Char) : Nat :=
  ds.foldl (fun n c => n * 10 + (c.toNat - 48)) 0

/-- `re.sub(r"[^\d]", "", group)` followed by the `isdigit()` guard and
integer parsing: strip non-digits, fail if nothing is left. -/
def extractVal (g : List Char) : Option Nat :=
  if g.filter isDigitC = [] then none else some (natOfDigits (g.filter isDigitC))

/-- The normalization applied by `parse_listings_count`:
`unicodedata.normalize("NFKD", text).encode("ascii","ignore").decode("ascii").lower()`. -/
def normText (s : List Char) : List Char := (asciiFoldList s).map pyLower

/-- The ordered pattern loop of `parse_listings_count`: the first pattern that
matches AND yields digits wins; a pattern that matches without digits falls
through to the next pattern. -/
def firstMatch (t : List Char) : Option Nat :=
  ((scanFor pat1At t).bind extractVal).orElse (fun _ =>
    ((scanFor pat2At t).bind extractVal).orElse (fun _ =>
      ((scanFor pat3At t).bind extractVal).orElse (fun _ =>
        (scanFor pat4At t).bind extractVal)))

/-- `parse_listings_count` (src/main.py:111-136). -/
def parse_listings_count (text : List Char) : Nat :=
  if text = [] then 0 else (firstMatch (normText text)).getD 0

/-- All keywords any of the four patterns can require. -/
def countKeywords : List (List Char) :=
  ["itens".data, "items".data, "listings".data, "anuncios".data,
    "acomodacoes".data, "places".data]

/-- "A digit adjacent to a listing keyword": the text contains a non-empty run
of number characters, at least one of which is a digit, followed by
whitespace, followed by one of the listing keywords. -/
def hasNumberKeyword (t : List Char) : Prop :=
  ∃ pre g w k post, t = pre ++ g ++ w ++ k ++ post ∧ g ≠ [] ∧
    (∀ c ∈ g, isNumC c = true) ∧ (∃ c ∈ g, isDigitC c = true) ∧
    w ≠ [] ∧ (∀ c ∈ w, isPySpace c = true) ∧ k ∈ countKeywords

theorem litAt_decomp : ∀ {k s : List Char}, litAt k s = true → ∃ post, s = k ++ post := by
  intro k
  induction k with
  | nil => exact fun h => ⟨_, rfl⟩
  | cons a ks ih =>
    intro s h
    cases s with
    | nil => simp [litAt] at h
    | cons b rest =>
      simp only [litAt, Bool.and_eq_true, beq_iff_eq] at h
      obtain ⟨post, hp⟩ := ih h.2
      exact ⟨post, by rw [h.1, hp]; rfl⟩

theorem litStrip_decomp {k s r : List Char} (h : litStrip k s = some r) : s = k ++ r := by
  unfold litStrip at h
  by_cases hl : litAt k s = true
  · rw [if_pos hl] at h
    obtain ⟨post, hp⟩ := litAt_decomp hl
    injection h with h
    rw [← h, hp, List.drop_left]
  · rw [if_neg hl] at h; exact absurd h (by simp)

theorem wsSkip_decomp {s r : List Char} (h : wsSkip s = some r) :
    ∃ w, s = w ++ r ∧ w ≠ [] ∧ ∀ c ∈ w, isPySpace c = true := by
  unfold wsSkip at h
  by_cases hw : s.takeWhile isPySpace = []
  · rw [if_pos hw] at h; exact absurd h (by simp)
  · rw [if_neg hw] at h
    injection h with h
    exact ⟨s.takeWhile isPySpace,
      by rw [← h, List.takeWhile_append_dropWhile], hw,
      fun c hc => List.mem_takeWhile_imp hc⟩

theorem numKwAt_decomp {isCls : Char → Bool} {kws : List (List Char)} {s g : List Char}
    (h : numKwAt isCls kws s = some g) :
    ∃ w k post, s = g ++ w ++ k ++ post ∧ g ≠ [] ∧ (∀ c ∈ g, isCls c = true) ∧
      w ≠ [] ∧ (∀ c ∈ w, isPySpace c = true) ∧ k ∈ kws := by
  unfold numKwAt at h
  by_cases hg : s.takeWhile isCls = []
  · rw [if_pos hg] at h; exact absurd h (by simp)
  · rw [if_neg hg] at h
    by_cases hw : (s.dropWhile isCls).takeWhile isPySpace = []
    · rw [if_pos hw] at h; exact absurd h (by simp)
    · rw [if_neg hw] at h
      by_cases hkw : kwAt kws ((s.dropWhile isCls).dropWhile isPySpace) = true
      · rw [if_pos hkw] at h
        injection h with h
        obtain ⟨k, hk, hlit⟩ := List.any_eq_true.mp hkw
        obtain ⟨post, hpost⟩ := litAt_decomp hlit
        refine ⟨(s.dropWhile isCls).takeWhile isPySpace, k, post, ?_, ?_, ?_, hw, ?_, hk⟩
        · rw [← h]
          simp only [List.append_assoc]
          rw [← hpost, List.takeWhile_append_dropWhile,
            List.takeWhile_append_dropWhile]
        · rw [← h]; exact hg
        · intro c hc; rw [← h] at hc; exact List.mem_takeWhile_imp hc
        · exact fun c hc => List.mem_takeWhile_imp hc
      · rw [if_neg hkw] at h; exact absurd h (by simp)

theorem scanFor_decomp {f : List Char → Option (List Char)} :
    ∀ {t g : List Char}, scanFor f t = some g →
      ∃ pre suf, t = pre ++ suf ∧ f suf = some g := by
  intro t
  induction t with
  | nil => exact fun h => ⟨[], [], rfl, h⟩
  | cons c rest ih =>
    intro g h
    unfold scanFor at h
    rcases e : f (c :: rest) with _ | g2
    · rw [e] at h
      obtain ⟨pre, suf, hts, hf⟩ := ih h
      exact ⟨c :: pre, suf, by rw [hts]; rfl, hf⟩
    · rw [e] at h
      injection h with h
      exact ⟨[], c :: rest, rfl, by rw [e, h]⟩

theorem lineScanNumKw_decomp {kws : List (List Char)} :
    ∀ {s g : List Char}, lineScanNumKw kws s = some g →
      ∃ pre suf, s = pre ++ suf ∧ numKwAt isNumC kws suf = some g := by
  intro s
  induction s with
  | nil => intro g h; simp [lineScanNumKw] at h
  | cons c rest ih =>
    intro g h
    unfold lineScanNumKw at h
    rcases e : numKwAt isNumC kws (c :: rest) with _ | g2
    · rw [e] at h
      by_cases hc : c = '\n'
      · rw [if_pos hc] at h; exact absurd h (by simp)
      · rw [if_neg hc] at h
        obtain ⟨pre, suf, hts, hf⟩ := ih h
        exact ⟨c :: pre, suf, by rw [hts]; rfl, hf⟩
    · rw [e] at h
      injection h with h
      exact ⟨[], c :: rest, rfl, by rw [e, h]⟩

theorem hasNK_of_numKwAt {isCls : Char → Bool} {kws : List (List Char)}
    {s g : List Char} (pre : List Char)
    (hcls : ∀ c, isCls c = true → isNumC c = true)
    (hkws : ∀ k ∈ kws, k ∈ countKeywords)
    (h : numKwAt isCls kws s = some g)
    (hdig : ∃ c ∈ g, isDigitC c = true) :
    hasNumberKeyword (pre ++ s) := by
  obtain ⟨w, k, post, hs, hg, hcg, hw, hcw, hk⟩ := numKwAt_decomp h
  exact ⟨pre, g, w, k, post, by rw [hs]; simp [List.append_assoc], hg,
    fun c hc => hcls c (hcg c hc), hdig, hw, hcw, hkws k hk⟩

theorem digit_of_extractVal {g : List Char} {n : Nat} (h : extractVal g = some n) :
    ∃ c ∈ g, isDigitC c = true := by
  unfold extractVal at h
  by_cases hf : g.filter isDigitC = []
  · rw [if_pos hf] at h; exact absurd h (by simp)
  · obtain ⟨c, hc⟩ := List.exists_mem_of_ne_nil _ hf
    have := List.mem_filter.mp hc
    exact ⟨c, this.1, this.2⟩

theorem orElse_eq_some {α : Type} {a : Option α} {f : Unit → Option α} {r : α}
    (h : a.orElse f = some r) : a = some r ∨ f () = some r := by
  cases a
  · exact Or.inr h
  · exact Or.inl h

theorem hasNK_scan1 {t g : List Char} (h : scanFor pat1At t = some g)
    (hdig : ∃ c ∈ g, isDigitC c = true) : hasNumberKeyword t := by
  obtain ⟨pre, suf, hts, hf⟩ := scanFor_decomp h
  unfold pat1At at hf
  obtain ⟨r, hor, hrest⟩ := Option.bind_eq_some.mp hf
  obtain ⟨r2, hws, hnum⟩ := Option.bind_eq_some.mp hrest
  have hsuf : ∃ lit, suf = lit ++ r := by
    rcases orElse_eq_some hor with h2 | h2
    · exact ⟨"de".data, litStrip_decomp h2⟩
    · exact ⟨"of".data, litStrip_decomp h2⟩
  obtain ⟨lit, hlit⟩ := hsuf
  obtain ⟨w0, hr, _, _⟩ := wsSkip_decomp hws
  have hnk : hasNumberKeyword ((pre ++ lit ++ w0) ++ r2) :=
    hasNK_of_numKwAt _ (fun c hc => hc) (by decide) hnum hdig
  rw [hts, hlit, hr]
  simpa [List.append_assoc] using hnk

theorem hasNK_scan2 {t g : List Char} (h : scanFor pat2At t = some g)
    (hdig : ∃ c ∈ g, isDigitC c = true) : hasNumberKeyword t := by
  obtain ⟨pre, suf, hts, hf⟩ := scanFor_decomp h
  unfold pat2At at hf
  obtain ⟨r, hlits, hline⟩ := Option.bind_eq_some.mp hf
  have hlit := litStrip_decomp hlits
  obtain ⟨pre2, suf2, hr, hnum⟩ := lineScanNumKw_decomp hline
  have hnk : hasNumberKeyword ((pre ++ "mostrando".data ++ pre2) ++ suf2) :=
    hasNK_of_numKwAt _ (fun c hc => hc) (by decide) hnum hdig
  rw [hts, hlit, hr]
  simpa [List.append_assoc] using hnk

theorem hasNK_scan3 {t g : List Char} (h : scanFor pat3At t = some g)
    (hdig : ∃ c ∈ g, isDigitC c = true) : hasNumberKeyword t := by
  obtain ⟨pre, suf, hts, hf⟩ := scanFor_decomp h
  rw [hts]
  exact hasNK_of_numKwAt pre (fun c hc => hc) (by decide) hf hdig

theorem hasNK_scan4 {t g : List Char} (h : scanFor pat4At t = some g)
    (hdig : ∃ c ∈ g, isDigitC c = true) : hasNumberKeyword t := by
  obtain ⟨pre, suf, hts, hf⟩ := scanFor_decomp h
  rw [hts]
  exact hasNK_of_numKwAt pre (fun c hc => by unfold isNumC; rw [hc]; rfl)
    (by decide) hf hdig

theorem firstMatch_decomp {t : List Char} {n : Nat} (h : firstMatch t = some n) :
    ∃ g, extractVal g = some n ∧
      (scanFor pat1At t = some g ∨ scanFor pat2At t = some g ∨
        scanFor pat3At t = some g ∨ scanFor pat4At t = some g) := by
  unfold firstMatch at h
  rcases orElse_eq_some h with h1 | h
  · obtain ⟨g, hg, he⟩ := Option.bind_eq_some.mp h1
    exact ⟨g, he, Or.inl hg⟩
  · rcases orElse_eq_some h with h2 | h
    · obtain ⟨g, hg, he⟩ := Option.bind_eq_some.mp h2
      exact ⟨g, he, Or.inr (Or.inl hg)⟩
    · rcases orElse_eq_some h with h3 | h4
      · obtain ⟨g, hg, he⟩ := Option.bind_eq_some.mp h3
        exact ⟨g, he, Or.inr (Or.inr (Or.inl hg))⟩
      · obtain ⟨g, hg, he⟩ := Option.bind_eq_some.mp h4
        exact ⟨g, he, Or.inr (Or.inr (Or.inr hg))⟩

/-- Claim C6: `parse_listings_count` returns the correct integer for each
supported phrasing ("Mostrando 1-10 de 37 itens" → 37, "42 acomodações" → 42,
with thousands separators stripped: "Mostrando 1-10 de 1.234 itens" → 1234),
returns 0 on a bare date ("Nov 11, 2023"), and more generally returns 0 for
any text whose normalization contains no digit run adjacent (across
whitespace) to a listing keyword; the patterns are tried in order and the
first digit-yielding match wins. -/
theorem parse_listings_count_spec :
    parse_listings_count "Mostrando 1-10 de 37 itens".data = 37 ∧
    parse_listings_count "42 acomodações".data = 42 ∧
    parse_listings_count "Nov 11, 2023".data = 0 ∧
    parse_listings_count "Mostrando 1-10 de 1.234 itens".data = 1234 ∧
    ∀ s, parse_listings_count s ≠ 0 → hasNumberKeyword (normText s) := by
  refine ⟨by decide, by decide, by decide, by decide, ?_⟩
  intro s hne
  unfold parse_listings_count at hne
  by_cases hs : s = []
  · rw [if_pos hs] at hne; exact absurd rfl hne
  · rw [if_neg hs] at hne
    rcases e : firstMatch (normText s) with _ | n
    · rw [e] at hne; exact absurd rfl hne
    · obtain ⟨g, hev, hscan⟩ := firstMatch_decomp e
      have hdig := digit_of_extractVal hev
      rcases hscan with h | h | h | h
      · exact hasNK_scan1 h hdig
      · exact hasNK_scan2 h hdig
      · exact hasNK_scan3 h hdig
      · exact hasNK_scan4 h hdig

/-- Witness for claim C6's universal part at a concrete input. -/
theorem parse_listings_count_spec_witness :
    hasNumberKeyword (normText "de 37 itens".data) :=
  parse_listings_count_spec.2.2.2.2 "de 37 itens".data (by decide)

/-!
## `flush_buffer` (src/main.py:196-220)

A `ProfileRecord` is one row of the output table (the dict built by
`scrape_profile`).  `flush_buffer` reloads the table from disk when the output
file exists, concatenates the new rows, drops duplicate `source_url` keys
keeping the last occurrence (`pandas.DataFrame.drop_duplicates(subset=
"source_url", keep="last")`), and writes the whole table back.  The state is
`(disk, mem)`: the on-disk table (`none` = file absent) and the in-memory
`self.output_df`.
-/

/-- One row of the output table, as built by `scrape_profile`. -/
structure ProfileRecord where
  city : List Char
  listing_title : List Char
  host_name : List Char
  host_profile_url : List Char
  host_listings_count : Nat
  source_url : List Char
  scraped_at : List Char
deriving DecidableEq

/-- `drop_duplicates(subset="source_url", keep="last")`: a row survives iff no
later row has the same key; surviving rows keep their relative order. -/
def dropDupKeepLast : List ProfileRecord → List ProfileRecord
  | [] => []
  | r :: rest =>
    if rest.any (fun x => x.source_url == r.source_url) then dropDupKeepLast rest
    else r :: dropDupKeepLast rest

/-- `flush_buffer` (src/main.py:196-220) on the success path of the disk read:
on empty `rows` it is a no-op; otherwise it concatenates the reloaded table
(or the in-memory one when the file does not exist yet) with the new rows,
dedups by key keeping the last occurrence, and writes the result back. -/
def flush_buffer (disk : Option (List ProfileRecord)) (mem rows : List ProfileRecord) :
    Option (List ProfileRecord) × List ProfileRecord :=
  if rows = [] then (disk, mem)
  else
    match disk with
    | some current =>
      (some (dropDupKeepLast (current ++ rows)), dropDupKeepLast (current ++ rows))
    | none =>
      (some (dropDupKeepLast (if mem = [] then rows else mem ++ rows)),
        dropDupKeepLast (if mem = [] then rows else mem ++ rows))

/-- Flush a sequence of batches starting from state `st`. -/
def flushRuns (st : Option (List ProfileRecord) × List ProfileRecord) :
    List (List ProfileRecord) → Option (List ProfileRecord) × List ProfileRecord
  | [] => st
  | b :: bs => flushRuns (flush_buffer st.1 st.2 b) bs

/-- Flush a sequence of batches against an initially absent output file. -/
def flushSeq (batches : List (List ProfileRecord)) :
    Option (List ProfileRecord) × List ProfileRecord :=
  flushRuns (none, []) batches

/-- The last row of `l` whose `source_url` is `k` (the record that
"survives" for key `k`, under keep-last dedup semantics). -/
def lastWithKey (k : List Char) : List ProfileRecord → Option ProfileRecord
  | [] => none
  | r :: rest =>
    match lastWithKey k rest with
    | some x => some x
    | none => if r.source_url = k then some r else none

/-- Concatenation of all batches in flush order. -/
def flatBatches : List (List ProfileRecord) → List ProfileRecord
  | [] => []
  | b :: bs => b ++ flatBatches bs

theorem lastWithKey_append (k : List Char) (a b : List ProfileRecord) :
    lastWithKey k (a ++ b) =
      ((lastWithKey k b).orElse (fun _ => lastWithKey k a)) := by
  induction a with
  | nil =>
    show lastWithKey k b = _
    cases lastWithKey k b <;> rfl
  | cons r rest ih =>
    show (match lastWithKey k (rest ++ b) with
      | some x => some x
      | none => if r.source_url = k then some r else none) =
      (lastWithKey k b).orElse (fun _ =>
        (match lastWithKey k rest with
          | some x => some x
          | none => if r.source_url = k then some r else none))
    rw [ih]
    cases lastWithKey k b <;> cases lastWithKey k rest <;> rfl

theorem lastWithKey_eq_none {k : List Char} :
    ∀ {l : List ProfileRecord}, lastWithKey k l = none → ∀ r ∈ l, r.source_url ≠ k := by
  intro l
  induction l with
  | nil => intro _ r hr; simp at hr
  | cons a rest ih =>
    intro h r hr
    unfold lastWithKey at h
    rcases e : lastWithKey k rest with _ | x
    · rw [e] at h
      rcases List.mem_cons.mp hr with hr | hr
      · subst hr
        intro hk
        rw [if_pos hk] at h
        exact absurd h (by simp)
      · exact ih e r hr
    · rw [e] at h; exact absurd h (by simp)

theorem mem_dropDupKeepLast {r : ProfileRecord} :
    ∀ {l : List ProfileRecord}, r ∈ dropDupKeepLast l → r ∈ l := by
  intro l
  induction l with
  | nil => intro h; simp [dropDupKeepLast] at h
  | cons a rest ih =>
    intro h
    unfold dropDupKeepLast at h
    by_cases hany : rest.any (fun x => x.source_url == a.source_url) = true
    · rw [if_pos hany] at h
      exact List.mem_cons_of_mem _ (ih h)
    · rw [if_neg hany] at h
      rcases List.mem_cons.mp h with h | h
      · exact h ▸ List.mem_cons_self _ _
      · exact List.mem_cons_of_mem _ (ih h)

theorem nodup_keys_dropDupKeepLast :
    ∀ l : List ProfileRecord,
      ((dropDupKeepLast l).map (fun r => r.source_url)).Nodup := by
  intro l
  induction l with
  | nil => simp [dropDupKeepLast]
  | cons a rest ih =>
    unfold dropDupKeepLast
    by_cases hany : rest.any (fun x => x.source_url == a.source_url) = true
    · rw [if_pos hany]; exact ih
    · rw [if_neg hany]
      rw [List.map_cons, List.nodup_cons]
      refine ⟨?_, ih⟩
      intro hmem
      obtain ⟨x, hx, hxk⟩ := List.mem_map.mp hmem
      have hx' := mem_dropDupKeepLast hx
      have := List.any_eq_false.mp (Bool.eq_false_iff.mpr hany) x hx'
      simp only [beq_iff_eq] at this
      exact this hxk

theorem lastWithKey_dropDupKeepLast (k : List Char) :
    ∀ l : List ProfileRecord,
      lastWithKey k (dropDupKeepLast l) = lastWithKey k l := by
  intro l
  induction l with
  | nil => rfl
  | cons a rest ih =>
    unfold dropDupKeepLast
    by_cases hany : rest.any (fun x => x.source_url == a.source_url) = true
    · rw [if_pos hany]
      rw [ih]
      show _ = (match lastWithKey k rest with
        | some x => some x
        | none => if a.source_url = k then some a else none)
      rcases e : lastWithKey k rest with _ | x
      · by_cases hk : a.source_url = k
        · obtain ⟨x, hx, hxk⟩ := List.any_eq_true.mp hany
          simp only [beq_iff_eq] at hxk
          exact absurd (hxk.trans hk) (lastWithKey_eq_none e x hx)
        · rw [if_neg hk]
      · rfl
    · rw [if_neg hany]
      show (match lastWithKey k (dropDupKeepLast rest) with
        | some x => some x
        | none => if a.source_url = k then some a else none) =
        (match lastWithKey k rest with
          | some x => some x
          | none => if a.source_url = k then some a else none)
      rw [ih]

/-- The invariant carried through a sequence of flushes: when the file exists,
the in-memory table mirrors it, its keys are duplicate-free, and for every key
it holds the last row flushed with that key. -/
def FlushInv (st : Option (List ProfileRecord) × List ProfileRecord)
    (flat : List ProfileRecord) : Prop :=
  (st.1 = none → st.2 = [] ∧ flat = []) ∧
  (∀ t, st.1 = some t → st.2 = t ∧
    ((t.map (fun r => r.source_url)).Nodup ∧
      ∀ k, lastWithKey k t = lastWithKey k flat))

theorem flushInv_step {st : Option (List ProfileRecord) × List ProfileRecord}
    {flat : List ProfileRecord} (b : List ProfileRecord) (h : FlushInv st flat) :
    FlushInv (flush_buffer st.1 st.2 b) (flat ++ b) := by
  by_cases hb : b = []
  · subst hb
    rw [List.append_nil]
    unfold flush_buffer
    rw [if_pos rfl]
    exact h
  · unfold flush_buffer
    rw [if_neg hb]
    rcases e : st.1 with _ | t
    · obtain ⟨hmem, hflat⟩ := h.1 e
      rw [hmem, hflat]
      show FlushInv (some (dropDupKeepLast b), dropDupKeepLast b) ([] ++ b)
      constructor
      · intro hcon; exact absurd hcon (by simp)
      · intro t' ht'
        injection ht' with ht'
        refine ⟨?_, ?_, ?_⟩
        · show dropDupKeepLast b = t'
          exact ht'
        · rw [← ht']; exact nodup_keys_dropDupKeepLast b
        · intro k
          rw [← ht', lastWithKey_dropDupKeepLast]
          rfl
    · obtain ⟨hmem, hnodup, hlast⟩ := h.2 t e
      rw [hmem]
      show FlushInv (some (dropDupKeepLast (t ++ b)), dropDupKeepLast (t ++ b)) (flat ++ b)
      constructor
      · intro hcon; exact absurd hcon (by simp)
      · intro t' ht'
        injection ht' with ht'
        refine ⟨?_, ?_, ?_⟩
        · show dropDupKeepLast (t ++ b) = t'
          exact ht'
        · rw [← ht']; exact nodup_keys_dropDupKeepLast _
        · intro k
          rw [← ht', lastWithKey_dropDupKeepLast, lastWithKey_append,
            lastWithKey_append, hlast k]

theorem flushRuns_inv :
    ∀ (bs : List (List ProfileRecord))
      (st : Option (List ProfileRecord) × List ProfileRecord)
      (flat : List ProfileRecord), FlushInv st flat →
      FlushInv (flushRuns st bs) (flat ++ flatBatches bs) := by
  intro bs
  induction bs with
  | nil =>
    intro st flat h
    show FlushInv st _
    rw [flatBatches, List.append_nil]
    exact h
  | cons b bs ih =>
    intro st flat h
    show FlushInv (flushRuns (flush_buffer st.1 st.2 b) bs) _
    have := ih _ _ (flushInv_step b h)
    rw [flatBatches, ← List.append_assoc]
    exact this

/-- Claim C1: for every sequence of flushed batches against the same (initially
absent) output file, after each flush the written table has exactly one record
per `source_url`, and for every key the surviving record is the last row with
that key in flush order — i.e. the most recently flushed batch wins on
overlapping keys. -/
theorem flush_buffer_dedup (batches : List (List ProfileRecord))
    (table : List ProfileRecord) (h : (flushSeq batches).1 = some table) :
    (table.map (fun r => r.source_url)).Nodup ∧
      ∀ k, lastWithKey k table = lastWithKey k (flatBatches batches) := by
  have hinv := flushRuns_inv batches (none, []) []
    ⟨fun _ => ⟨rfl, rfl⟩, fun t ht => absurd ht (by simp)⟩
  exact (hinv.2 table h).2

/-- A small record constructor for concrete flush scenarios. -/
def mkRec (name url : List Char) : ProfileRecord :=
  ⟨"jacarei".data, "title".data, name, "hurl".data, 1, url, "now".data⟩

/-- Two overlapping batches: key "u1" appears in both. -/
def demoBatches : List (List ProfileRecord) :=
  [[mkRec "A".data "u1".data],
    [mkRec "B".data "u2".data, mkRec "C".data "u1".data]]

/-- The table written after flushing `demoBatches`: one row per key, with the
second batch's row for "u1" surviving. -/
def demoTable : List ProfileRecord :=
  [mkRec "B".data "u2".data, mkRec "C".data "u1".data]

/-- Witness for claim C1: the overlapping-batch scenario, discharged at
concrete inputs. -/
theorem flush_buffer_dedup_witness :
    (demoTable.map (fun r => r.source_url)).Nodup ∧
      ∀ k, lastWithKey k demoTable = lastWithKey k (flatBatches demoBatches) :=
  flush_buffer_dedup demoBatches demoTable (by decide)

/-!
## `discover_listings` (src/main.py:282-347)

The discovery loop is modelled over a sequence of search pages.  Each page
contributes the `href`s of its `a[href*='/rooms/']` anchors and whether an
enabled, displayed next-page control exists (and its click succeeds).  Per
page the loop adds every matching link (query string stripped) that is not
already known; it breaks when `len(new_urls) >= max_new` — but only AFTER the
whole page was scanned — or when there is no next-page control.
-/

/-- One search page, as the loop observes it. -/
structure SearchPage where
  links : List (List Char)
  next : Bool
deriving DecidableEq

/-- Substring test (`"/rooms/" in href`). -/
def hasSub (needle : List Char) : List Char → Bool
  | [] => litAt needle []
  | c :: rest => litAt needle (c :: rest) || hasSub needle rest

/-- `href.split("?")[0]`: everything before the first question mark. -/
def cleanUrl (href : List Char) : List Char :=
  href.takeWhile (fun c => c != '?')

/-- The literal `/rooms/`. -/
def roomsLit : List Char := "/rooms/".data

/-- The inner `for el in elements` loop of one page scan: add each matching,
query-stripped link not already in `discovered` or the accumulator. -/
def addLinks (discovered acc : List (List Char)) : List (List Char) → List (List Char)
  | [] => acc
  | href :: rest =>
    if hasSub roomsLit href then
      if cleanUrl href ∈ discovered ∨ cleanUrl href ∈ acc then
        addLinks discovered acc rest
      else addLinks discovered (acc ++ [cleanUrl href]) rest
    else addLinks discovered acc rest

/-- The `while len(new_urls) < max_new` loop over a finite page sequence:
scan the current page in full, then stop if the target is reached or there is
no next-page control. -/
def discoverRun (discovered : List (List Char)) (maxNew : Nat) :
    List SearchPage → List (List Char) → List (List Char)
  | [], acc => acc
  | p :: rest, acc =>
    if acc.length < maxNew then
      if maxNew ≤ (addLinks discovered acc p.links).length then
        addLinks discovered acc p.links
      else if p.next then discoverRun discovered maxNew rest (addLinks discovered acc p.links)
      else addLinks discovered acc p.links
    else acc

/-- A single search page carrying two matching room links. -/
def overshootPages : List SearchPage :=
  [⟨["https://a/rooms/1".data, "https://a/rooms/2".data], false⟩]

/-- Counterexample to claim C2 as stated: with `max_new = 1` and a first page
holding two fresh room links, `discover_listings` returns 2 URLs, exceeding
`max_new` — the per-page scan adds every link before the target is checked. -/
theorem discover_maxnew_cex :
    ¬ (discoverRun [] 1 overshootPages []).length ≤ 1 := by decide

/-- The largest number of matching links on any single page. -/
def maxPageLinks (pages : List SearchPage) : Nat :=
  pages.foldr (fun p m => max p.links.length m) 0

theorem addLinks_length (discovered : List (List Char)) :
    ∀ (links acc : List (List Char)),
      (addLinks discovered acc links).length ≤ acc.length + links.length := by
  intro links
  induction links with
  | nil => intro acc; simp [addLinks]
  | cons href rest ih =>
    intro acc
    unfold addLinks
    by_cases h1 : hasSub roomsLit href = true
    · rw [if_pos h1]
      by_cases h2 : cleanUrl href ∈ discovered ∨ cleanUrl href ∈ acc
      · rw [if_pos h2]
        have := ih acc
        simp only [List.length_cons]
        omega
      · rw [if_neg h2]
        have := ih (acc ++ [cleanUrl href])
        simp only [List.length_append, List.length_cons, List.length_nil] at this ⊢
        omega
    · rw [if_neg h1]
      have := ih acc
      simp only [List.length_cons]
      omega

/-- Claim C2, amended: the returned set can overshoot `max_new`, but only by
what the final page contributes: starting below `max_new`, the result stays
below `max_new` plus the largest per-page link count. -/
theorem discover_maxnew_amended (discovered : List (List Char)) (maxNew : Nat) :
    ∀ (pages : List SearchPage) (acc : List (List Char)), acc.length < maxNew →
      (discoverRun discovered maxNew pages acc).length < maxNew + maxPageLinks pages := by
  intro pages
  induction pages with
  | nil =>
    intro acc hacc
    show acc.length < _
    omega
  | cons p rest ih =>
    intro acc hacc
    have hm : maxPageLinks (p :: rest) = max p.links.length (maxPageLinks rest) := rfl
    have hadd := addLinks_length discovered p.links acc
    unfold discoverRun
    rw [if_pos hacc]
    by_cases h1 : maxNew ≤ (addLinks discovered acc p.links).length
    · rw [if_pos h1]
      simp only [hm]
      omega
    · rw [if_neg h1]
      by_cases h2 : p.next = true
      · rw [if_pos h2]
        have := ih (addLinks discovered acc p.links) (by omega)
        simp only [hm] at *
        omega
      · rw [if_neg h2]
        simp only [hm]
        omega

/-- Witness for the amended claim C2 at the concrete overshoot scenario. -/
theorem discover_maxnew_amended_witness :
    (discoverRun [] 1 overshootPages []).length < 1 + maxPageLinks overshootPages :=
  discover_maxnew_amended [] 1 overshootPages [] (by decide)

/-!
## Discovery termination (claim C4)

The loop is viewed over an infinite page sequence `pages : Nat → SearchPage`.
`accAfter k` is the accumulated new-URL list after scanning `k` pages;
the loop stops after page `k` iff the target is reached there or page `k` has
no usable next-page control.  The loop terminates iff some page satisfies a
stop condition.
-/

/-- Accumulated new URLs after scanning the first `k` pages. -/
def accAfter (discovered : List (List Char)) (pages : Nat → SearchPage) : Nat → List (List Char)
  | 0 => []
  | k + 1 => addLinks discovered (accAfter discovered pages k) (pages k).links

/-- The loop's stop condition after scanning page `k`: target reached, or no
enabled next-page control on page `k`. -/
def stopsAfter (discovered : List (List Char)) (pages : Nat → SearchPage)
    (maxNew k : Nat) : Prop :=
  maxNew ≤ (accAfter discovered pages (k + 1)).length ∨ (pages k).next = false

/-- The discovery loop performs finitely many page turns. -/
def discoverTerminates (discovered : List (List Char)) (pages : Nat → SearchPage)
    (maxNew : Nat) : Prop :=
  ∃ k, stopsAfter discovered pages maxNew k

/-- An unbounded site: every page has an enabled next-page control and yields
no new links. -/
def endlessPages : Nat → SearchPage := fun _ => ⟨[], true⟩

/-- Counterexample to claim C4 as stated: on an unbounded page sequence where
every page has an enabled next-page control but contributes no new links, no
stop condition ever holds — the `while len(new_urls) < max_new` loop never
exits (there is no page-count cap in the code). -/
theorem discover_termination_cex : ¬ discoverTerminates [] endlessPages 20 := by
  rintro ⟨k, hk⟩
  have hacc : ∀ n, accAfter [] endlessPages n = [] := by
    intro n
    induction n with
    | zero => rfl
    | succ n ih =>
      show addLinks [] (accAfter [] endlessPages n) [] = []
      rw [ih]
      rfl
  rcases hk with hk | hk
  · rw [hacc] at hk
    exact absurd hk (by decide)
  · have hnext : (endlessPages k).next = true := rfl
    rw [hnext] at hk
    exact absurd hk (by decide)

/-- Claim C4, amended: the pass does terminate when some page has no enabled
next-page control, or when every scanned page contributes at least one new
link (the target is then reached within `maxNew` page turns); but a page that
contributes zero new links only terminates the loop if its next-page control
is missing. -/
theorem discover_terminates_amended (discovered : List (List Char))
    (pages : Nat → SearchPage) (maxNew : Nat)
    (h : (∃ k, (pages k).next = false) ∨
      ∀ k, (accAfter discovered pages k).length < (accAfter discovered pages (k + 1)).length) :
    discoverTerminates discovered pages maxNew := by
  rcases h with ⟨k, hk⟩ | hgrow
  · exact ⟨k, Or.inr hk⟩
  · have hge : ∀ n, n ≤ (accAfter discovered pages n).length := by
      intro n
      induction n with
      | zero => exact Nat.zero_le _
      | succ n ih => exact Nat.lt_of_le_of_lt ih (hgrow n)
    cases maxNew with
    | zero => exact ⟨0, Or.inl (Nat.zero_le _)⟩
    | succ m => exact ⟨m, Or.inl (hge (m + 1))⟩

/-- A site whose first page already lacks a next-page control. -/
def haltingPages : Nat → SearchPage := fun _ => ⟨[], false⟩

/-- Witness for the amended claim C4. -/
theorem discover_terminates_amended_witness :
    discoverTerminates [] haltingPages 20 :=
  discover_terminates_amended [] haltingPages 20 (Or.inl ⟨0, rfl⟩)

/-!
## Pending queue (src/main.py:226, 239) and persisted URL set (src/main.py:89-92)

`pending_urls = list(self.discovered_urls - self.processed_urls)` is Python
set difference materialized as a list; the list has one entry per element of
the difference.  `save_discovered_urls` writes `"\n".join(sorted(urls))`:
a sorted, deduplicated snapshot.  The run merges newly discovered URLs with
`self.discovered_urls.update(new_urls)` (a union) before saving.
-/

/-- `list(self.discovered_urls - self.processed_urls)` at run start
(src/main.py:226). -/
def pending_urls (discovered processed : Finset (List Char)) : Finset (List Char) :=
  discovered \ processed

/-- Claim C3: when the processed set is contained in the discovered set, the
pending queue has exactly `D − P` entries, independent of any ordering. -/
theorem pending_urls_card (discovered processed : Finset (List Char))
    (h : processed ⊆ discovered) :
    (pending_urls discovered processed).card = discovered.card - processed.card :=
  Finset.card_sdiff h

/-- Witness for claim C3 on a concrete three-element discovered set. -/
theorem pending_urls_card_witness :
    (pending_urls {"a".data, "b".data, "c".data} {"b".data}).card =
      ({"a".data, "b".data, "c".data} : Finset (List Char)).card -
        ({"b".data} : Finset (List Char)).card :=
  pending_urls_card _ _ (by decide)

/-- `save_discovered_urls` (src/main.py:89-92): the file content is the sorted
list of the URL set (lexicographic, as Python `sorted` on strings), one per
line. -/
def save_discovered_urls (urls : Finset (List Char)) : List (List Char) :=
  urls.sort (· ≤ ·)

/-- The discovery phase of `run` (src/main.py:234-238): discover new URLs
(membership in the already-known set blocks re-adding), merge them into the
discovered set by union, and save. -/
def run_discovery_update (discovered : Finset (List Char)) (maxNew : Nat)
    (pages : List SearchPage) : Finset (List Char) :=
  discovered ∪ (discoverRun (discovered.sort (· ≤ ·)) maxNew pages []).toFinset

theorem mem_cleanUrl_no_query (href : List Char) : '?' ∉ cleanUrl href := by
  intro h
  have := List.mem_takeWhile_imp h
  simp at this

theorem mem_addLinks {u : List Char} {discovered : List (List Char)} :
    ∀ {links acc : List (List Char)}, u ∈ addLinks discovered acc links →
      u ∈ acc ∨ ∃ href, u = cleanUrl href := by
  intro links
  induction links with
  | nil => intro acc h; exact Or.inl h
  | cons href rest ih =>
    intro acc h
    unfold addLinks at h
    by_cases h1 : hasSub roomsLit href = true
    · rw [if_pos h1] at h
      by_cases h2 : cleanUrl href ∈ discovered ∨ cleanUrl href ∈ acc
      · rw [if_pos h2] at h
        exact ih h
      · rw [if_neg h2] at h
        rcases ih h with h | h
        · rcases List.mem_append.mp h with h | h
          · exact Or.inl h
          · exact Or.inr ⟨href, (List.mem_singleton.mp h)⟩
        · exact Or.inr h
    · rw [if_neg h1] at h
      exact ih h

theorem mem_discoverRun {u : List Char} {discovered : List (List Char)} {maxNew : Nat} :
    ∀ {pages : List SearchPage} {acc : List (List Char)},
      u ∈ discoverRun discovered maxNew pages acc →
      u ∈ acc ∨ ∃ href, u = cleanUrl href := by
  intro pages
  induction pages with
  | nil => intro acc h; exact Or.inl h
  | cons p rest ih =>
    intro acc h
    unfold discoverRun at h
    by_cases h1 : acc.length < maxNew
    · rw [if_pos h1] at h
      by_cases h2 : maxNew ≤ (addLinks discovered acc p.links).length
      · rw [if_pos h2] at h
        exact mem_addLinks h
      · rw [if_neg h2] at h
        by_cases h3 : p.next = true
        · rw [if_pos h3] at h
          rcases ih h with h | h
          · exact mem_addLinks h
          · exact Or.inr h
        · rw [if_neg h3] at h
          exact mem_addLinks h
    · rw [if_neg h1] at h
      exact Or.inl h

/-- Claim C5: after any discovery pass, the written discovered-URL set is a
superset of the loaded one (union, never shrinking), and the written file is
a sorted, deduplicated list that represents exactly the merged set; if every
previously stored URL is query-free, every written URL is query-free (newly
discovered URLs are canonicalized by stripping the query string). -/
theorem discovered_save_monotonic (discovered : Finset (List Char)) (maxNew : Nat)
    (pages : List SearchPage) (hq : ∀ u ∈ discovered, '?' ∉ u) :
    discovered ⊆ run_discovery_update discovered maxNew pages ∧
    (save_discovered_urls (run_discovery_update discovered maxNew pages)).Sorted (· ≤ ·) ∧
    (save_discovered_urls (run_discovery_update discovered maxNew pages)).Nodup ∧
    (save_discovered_urls (run_discovery_update discovered maxNew pages)).toFinset =
      run_discovery_update discovered maxNew pages ∧
    ∀ u ∈ save_discovered_urls (run_discovery_update discovered maxNew pages), '?' ∉ u := by
  refine ⟨Finset.subset_union_left, Finset.sort_sorted _ _, Finset.sort_nodup _ _,
    Finset.sort_toFinset _ _, ?_⟩
  intro u hu
  rw [save_discovered_urls, Finset.mem_sort] at hu
  rcases Finset.mem_union.mp hu with hu | hu
  · exact hq u hu
  · rw [List.mem_toFinset] at hu
    rcases mem_discoverRun hu with h | ⟨href, rfl⟩
    · simp at h
    · exact mem_cleanUrl_no_query href

/-- A page carrying one fresh link with a query string attached. -/
def queryPages : List SearchPage :=
  [⟨["https://a/rooms/7?check_in=1".data], false⟩]

/-- Witness for claim C5 at a concrete state: one previously known URL, one
new link carrying a query string. -/
theorem discovered_save_monotonic_witness :
    {"https://a/rooms/9".data} ⊆ run_discovery_update {"https://a/rooms/9".data} 20 queryPages ∧
    (save_discovered_urls (run_discovery_update {"https://a/rooms/9".data} 20 queryPages)).Sorted (· ≤ ·) ∧
    (save_discovered_urls (run_discovery_update {"https://a/rooms/9".data} 20 queryPages)).Nodup ∧
    (save_discovered_urls (run_discovery_update {"https://a/rooms/9".data} 20 queryPages)).toFinset =
      run_discovery_update {"https://a/rooms/9".data} 20 queryPages ∧
    ∀ u ∈ save_discovered_urls (run_discovery_update {"https://a/rooms/9".data} 20 queryPages), '?' ∉ u :=
  discovered_save_monotonic _ 20 queryPages (by decide)

/-!
## `scrape_profile` (src/main.py:349-485)

The extraction pipeline is modelled as a pure function of an observation
environment: what each selector strategy would return on the listing page and
on the host profile page.  Navigation failures that abort the record are the
`none` cases of the host-URL strategy chain; every field extractor degrades to
a sentinel instead of failing.
-/

/-- What the selector strategies observe for one listing URL. -/
structure ScrapedEnv where
  titleExact : Option (List Char)
  titleH1 : Option (List Char)
  hostEl : Option (Option (List Char))
  clickNavUrl : Option (List Char)
  fallbackHref : Option (List Char)
  nameEl : Option (List Char)
  nameH1 : Option (List Char)
  countText : Option (List Char)
deriving DecidableEq

/-- Strip one localized "Listings by"-style marker (case-insensitively on the
ASCII letters) plus the following whitespace from the front of `s`
(the `re.sub(r"^(Acomodações de|Listings by|Accommodations by)\s+", "", ...)`
step). -/
def stripOneMarker (m s : List Char) : Option (List Char) :=
  if litAt (m.map pyLower) ((s.take m.length).map pyLower) then
    wsSkip (s.drop m.length)
  else none

/-- The host-name cleanup applied to the listings-scroller heading text. -/
def stripNameMarker (s : List Char) : List Char :=
  match stripOneMarker "Acomodações de".data s with
  | some r => pyStrip r
  | none =>
    match stripOneMarker "Listings by".data s with
    | some r => pyStrip r
    | none =>
      match stripOneMarker "Accommodations by".data s with
      | some r => pyStrip r
      | none => pyStrip s

/-- `text.replace("Sobre ", "")`: remove every occurrence of the literal. -/
def replaceSobre : List Char → List Char
  | [] => []
  | c :: rest =>
    if litAt "Sobre ".data (c :: rest) then replaceSobre (rest.drop 5)
    else c :: replaceSobre rest
termination_by l => l.length
decreasing_by
  · simp only [List.length_drop, List.length_cons]
    omega
  · simp only [List.length_cons]
    omega

/-- The listing-title strategy chain (exact XPath, then generic `h1`, then the
sentinel). -/
def titleFromEnv (env : ScrapedEnv) : List Char :=
  match env.titleExact with
  | some t => pyStrip t
  | none =>
    match env.titleH1 with
    | some t => pyStrip t
    | none => "Titulo nao capturado".data

/-- The host-profile-URL strategy chain (src/main.py:379-431): element found
via aria-label or absolute XPath → its `href`, else the URL reached by a
forced click; if neither, the `/users/show/` fallback anchor; else abort. -/
def hostUrlFromEnv (env : ScrapedEnv) : Option (List Char) :=
  match env.hostEl with
  | some (some href) => some href
  | some none =>
    match env.clickNavUrl with
    | some u => some u
    | none => env.fallbackHref
  | none => env.fallbackHref

/-- The host-name strategy chain (src/main.py:444-458): the listings-scroller
heading (marker stripped), else the page `h1` with "Sobre " removed, else the
sentinel `"Nao encontrado"`. -/
def hostNameFromEnv (env : ScrapedEnv) : List Char :=
  match env.nameEl with
  | some t => stripNameMarker (pyStrip t)
  | none =>
    match env.nameH1 with
    | some t => pyStrip (replaceSobre t)
    | none => "Nao encontrado".data

/-- The raw parsed count (src/main.py:460-467): parse the description text,
`0` when the element is missing. -/
def countFromEnv (env : ScrapedEnv) : Nat :=
  match env.countText with
  | some t => parse_listings_count t
  | none => 0

/-- `scrape_profile` (src/main.py:349-485) as a function of the observation
environment: `none` when no host-profile URL could be obtained, otherwise the
emitted record, with the zero-count fallback of src/main.py:469-471. -/
def scrape_profile (city : List Char) (env : ScrapedEnv) (listing_url now : List Char) :
    Option ProfileRecord :=
  match hostUrlFromEnv env with
  | none => none
  | some hurl =>
    some
      { city := city
        listing_title := titleFromEnv env
        host_name := hostNameFromEnv env
        host_profile_url := cleanUrl hurl
        host_listings_count :=
          if countFromEnv env = 0 ∧ hostNameFromEnv env ≠ "Nao encontrado".data then 1
          else countFromEnv env
        source_url := listing_url
        scraped_at := now }

/-- Claim C7: in every emitted record, if the count parser yielded 0 for the
description text (or the element was missing) but a host name was recovered
(not the "Nao encontrado" sentinel), then `host_listings_count` is at
least 1. -/
theorem profile_count_at_least_one (city : List Char) (env : ScrapedEnv)
    (listing_url now : List Char) (r : ProfileRecord)
    (hr : scrape_profile city env listing_url now = some r)
    (hzero : countFromEnv env = 0)
    (hname : r.host_name ≠ "Nao encontrado".data) :
    1 ≤ r.host_listings_count := by
  unfold scrape_profile at hr
  rcases e : hostUrlFromEnv env with _ | hurl
  · rw [e] at hr; exact absurd hr (by simp)
  · rw [e] at hr
    injection hr with hr
    subst hr
    have hname2 : hostNameFromEnv env ≠ "Nao encontrado".data := hname
    show 1 ≤ (if countFromEnv env = 0 ∧ hostNameFromEnv env ≠ "Nao encontrado".data then 1
      else countFromEnv env)
    rw [if_pos ⟨hzero, hname2⟩]

/-- An environment where the count element is missing but the name heading is
present. -/
def demoProfileEnv : ScrapedEnv :=
  ⟨some "T".data, none, some (some "https://a/users/show/1".data), none, none,
    some "Fulano".data, none, none⟩

/-- The record `scrape_profile` emits for `demoProfileEnv`. -/
def demoProfileRec : ProfileRecord :=
  ⟨"jacarei".data, "T".data, "Fulano".data, "https://a/users/show/1".data, 1,
    "src".data, "now".data⟩

/-- Witness for claim C7 at the concrete environment. -/
theorem profile_count_at_least_one_witness :
    1 ≤ demoProfileRec.host_listings_count :=
  profile_count_at_least_one "jacarei".data demoProfileEnv "src".data "now".data
    demoProfileRec (by decide) (by decide) (by decide)

/-!
## `run` (src/main.py:222-280) and `run_scraper` (src/main.py:488-496)

The lifecycle is modelled over an oracle of failure outcomes.  `run` is a
`try / except Exception / finally` block: any exception in the body is caught
and logged, and `close_driver` runs in the `finally` on every exit path
(normal completion, the early `return` on an empty queue, and exceptions).
`run_scraper` constructs the `SeleniumScraper` — whose `__init__` calls
`build_paths`, which performs `mkdir` on the output folder and can raise —
OUTSIDE of any try block, then calls `run`.
-/

/-- Which exit the orchestrator's `run` took. -/
inductive RunExit
  | completed
  | emptyQueue
  | errorCaught
deriving DecidableEq

/-- The failure oracle for one run. -/
structure RunEnv where
  setupFails : Bool
  driverAssignedBeforeFail : Bool
  pendingEmpty : Bool
  flushFails : Bool
  quitFails : Bool
deriving DecidableEq

/-- `close_driver` (src/main.py:188-194): if a driver is present, attempt
`quit()` — swallowing any exception with the bare `except: pass` — and set
`self.driver = None`. -/
def close_driver (driver : Option Nat) (quitFails : Bool) : Option Nat :=
  match driver, quitFails with
  | some _, true => none
  | some _, false => none
  | none, _ => none

/-- The body of `run`'s try block: `setup_driver` may raise (with or without
the driver already assigned); an empty pending queue returns early; a flush
(`to_excel`) may raise mid-loop; otherwise the loop completes.  Scrape and
discovery failures are caught inside their own functions and so never raise
here.  Returns the body's outcome and the driver state at that moment. -/
def runBody (env : RunEnv) : Except Unit RunExit × Option Nat :=
  if env.setupFails then
    (Except.error (), if env.driverAssignedBeforeFail then some 0 else none)
  else if env.pendingEmpty then (Except.ok RunExit.emptyQueue, some 0)
  else if env.flushFails then (Except.error (), some 0)
  else (Except.ok RunExit.completed, some 0)

/-- `run` (src/main.py:222-280): the except branch turns any body exception
into a logged `errorCaught` exit; the finally branch closes the driver.
Returns the exit taken and the final driver state. -/
def run (env : RunEnv) : RunExit × Option Nat :=
  ((match (runBody env).1 with
    | Except.ok e => e
    | Except.error _ => RunExit.errorCaught),
    close_driver (runBody env).2 env.quitFails)

theorem close_driver_closes (driver : Option Nat) (quitFails : Bool) :
    close_driver driver quitFails = none := by
  cases driver <;> cases quitFails <;> rfl

/-- Claim C9: on every exit path of `run` — normal completion, the early
return on an empty pending queue, and any exception raised in the body
(driver setup included) — the driver session is closed before `run`
returns, even when `quit()` itself raises. -/
theorem run_closes_driver (env : RunEnv) : (run env).2 = none := by
  show close_driver (runBody env).2 env.quitFails = none
  exact close_driver_closes _ _

/-- The environment of one `run_scraper` call: scraper construction
(`__init__` → `build_paths` → `mkdir`) can raise before `run` starts. -/
structure ScraperEnv where
  initFails : Bool
  runEnv : RunEnv
deriving DecidableEq

/-- `run_scraper` (src/main.py:488-496): construct the scraper — NOT inside
any try block — then call `run`.  An exception during construction propagates
to the caller. -/
def run_scraper (env : ScraperEnv) : Except Unit (RunExit × Option Nat) :=
  if env.initFails then Except.error ()
  else Except.ok (run env.runEnv)

/-- Counterexample to claim C10 as stated: when scraper construction fails
(e.g. `mkdir` on an invalid output folder raises in `build_paths`), the
exception propagates out of `run_scraper` to its caller — the barrier in
`run` does not cover `__init__`. -/
theorem run_scraper_cex :
    run_scraper ⟨true, ⟨false, false, false, false, false⟩⟩ = Except.error () := rfl

/-- Claim C10, amended: every exception raised inside `run` itself is caught
at the orchestrator boundary, so whenever scraper construction succeeds,
`run_scraper` returns normally — regardless of driver-setup, flush, or
cleanup failures during the run. -/
theorem run_scraper_no_raise (env : ScraperEnv) (h : env.initFails = false) :
    run_scraper env = Except.ok (run env.runEnv) := by
  unfold run_scraper
  rw [h]
  rfl

/-- Witness for the amended claim C10: a run whose driver setup fails still
returns normally. -/
theorem run_scraper_no_raise_witness :
    run_scraper ⟨false, ⟨true, true, false, true, true⟩⟩ =
      Except.ok (run ⟨true, true, false, true, true⟩) :=
  run_scraper_no_raise _ rfl
